import Mathlib

/-!
Shallow embedding of the tbpweb data layer (base/models.py, courses/models.py,
exams/forms.py) and proofs about it.

The repository targets Python 2 era Django (it uses `basestring` and
`string.letters`), so strings compare lexicographically by ASCII code point,
`string.letters` is the ASCII letters, and `int()` on a string strips
surrounding whitespace, accepts an optional sign and then decimal digits.

The database is modelled as explicit record state: term rows, officer rows,
auth-group memberships (pairs of group name and user id), and the cached
current term.  Django ORM calls become list operations on that state;
a method that can raise becomes a function into `Except`.
-/

set_option maxHeartbeats 1000000

deriving instance DecidableEq for Except

namespace Tbp

/-! ### Python string helpers -/

/-- Strip ASCII whitespace from both ends of a character list, as Python's
`str.strip()` does before `int()` parses a string. -/
def stripWs (cs : List Char) : List Char :=
  ((cs.dropWhile Char.isWhitespace).reverse.dropWhile Char.isWhitespace).reverse

/-- Value of a list of decimal digit characters, most significant first. -/
def digitsVal (cs : List Char) : Nat :=
  cs.foldl (fun a c => a * 10 + (c.toNat - 48)) 0

/-- Parse a nonempty all-digit character list; `none` otherwise. -/
def digitsToNat (cs : List Char) : Option Nat :=
  if !cs.isEmpty && cs.all Char.isDigit then some (digitsVal cs) else none

/-- Python's `int(s)` for a string `s`: surrounding whitespace is ignored, an
optional `+` or `-` sign precedes decimal digits; anything else raises
`ValueError`, modelled as `none`. -/
def pyStrToInt (s : String) : Option Int :=
  let cs := stripWs s.data
  if cs.head? = some '+' then (digitsToNat cs.tail).map (fun n => (n : Int))
  else if cs.head? = some '-' then (digitsToNat cs.tail).map (fun n => -(n : Int))
  else (digitsToNat cs).map (fun n => (n : Int))

/-- Fuel-driven decimal printer; the fuel argument makes it structurally
recursive so that concrete instances reduce in the kernel. -/
def natReprAux : Nat → Nat → List Char
  | 0, _ => []
  | f + 1, n =>
    if n < 10 then [Char.ofNat (48 + n)]
    else natReprAux f (n / 10) ++ [Char.ofNat (48 + n % 10)]

/-- Decimal representation of a natural number, Python's `str(n)`. -/
def natRepr (n : Nat) : List Char := natReprAux (n + 1) n

/-! ### base/models.py : Term -/

/-- The two-letter term codes of `Term.TERM_CHOICES`. -/
inductive TermCode
  | un
  | wi
  | sp
  | su
  | fa
deriving DecidableEq

/-- `Term.TERM_MAPPING`: numeric mapping of a term code for the primary key. -/
def TERM_MAPPING : TermCode → Int
  | .un => 0
  | .wi => 1
  | .sp => 2
  | .su => 3
  | .fa => 4

/-- The stored two-letter string of a term code. -/
def termCodeStr : TermCode → String
  | .un => "un"
  | .wi => "wi"
  | .sp => "sp"
  | .su => "su"
  | .fa => "fa"

/-- A persisted `Term` row: the primary key is always set in the database. -/
structure TermRow where
  id : Int
  term : TermCode
  year : Nat
  current : Bool
deriving DecidableEq

/-- An in-memory `Term` object; `id` is `none` before a primary key is set. -/
structure Term where
  id : Option Int
  term : TermCode
  year : Nat
  current : Bool
deriving DecidableEq

/-- An `OfficerPosition` row with the fields used by group synchronization. -/
structure OfficerPosition where
  short_name : String
  long_name : String
  executive : Bool
  auxiliary : Bool
deriving DecidableEq

/-- An `Officer` row: a user (by id), a position, and a term foreign key. -/
structure OfficerRow where
  user : Nat
  position : OfficerPosition
  termId : Int
deriving DecidableEq

/-- The database state touched by base/models.py: term rows, officer rows,
auth-group memberships as (group name, user id) pairs, and the cached
current term (`cache.get('current_term')`). -/
structure DBState where
  terms : List TermRow
  officers : List OfficerRow
  memberships : List (String × Nat)
  cachedCurrentTerm : Option TermRow
deriving DecidableEq

/-- Does `s` contain `pat` as a contiguous substring (Python's `in`)? -/
def hasSub (pat : List Char) : List Char → Bool
  | [] => pat.isEmpty
  | c :: t => pat.isPrefixOf (c :: t) || hasSub pat t

/-- `name__contains` lookup on strings. -/
def strContains (s pat : String) : Bool := hasSub pat.data s.data

/-- `OfficerPosition.get_corresponding_groups`: the group named `long_name`,
plus `Officer` unless the position is auxiliary, plus `Executive` if the
position is executive; for each of these a `Current `-prefixed group is added
right after it when the given term is the current term.  Groups are
represented by their names. -/
def OfficerPosition.get_corresponding_groups (p : OfficerPosition)
    (term : Option TermRow) : List String :=
  let is_current_term := match term with
    | some t => t.current
    | none => false
  let group_names := [p.long_name] ++ (if p.auxiliary then [] else ["Officer"])
    ++ (if p.executive then ["Executive"] else [])
  group_names.flatMap (fun n =>
    if is_current_term then [n, "Current " ++ n] else [n])

/-- Corresponding groups of an officer row, resolving the term foreign key
against the stored terms the way Django lazily loads `officer.term`. -/
def cgOf (db : DBState) (o : OfficerRow) : List String :=
  o.position.get_corresponding_groups
    (db.terms.find? (fun r => decide (r.id = o.termId)))

/-- `user.groups.add` for a single group: a no-op when the membership row
already exists. -/
def addMember (ms : List (String × Nat)) (g : String) (u : Nat) :
    List (String × Nat) :=
  if (g, u) ∈ ms then ms else ms ++ [(g, u)]

/-- `Officer._add_user_to_officer_groups`. -/
def addUserToOfficerGroups (db : DBState) (o : OfficerRow) : DBState :=
  { db with memberships :=
      (cgOf db o).foldl (fun ms g => addMember ms g o.user) db.memberships }

/-- `Officer._remove_user_from_officer_groups`: remove the user from the
officer's corresponding groups minus those still justified by one of the
user's (remaining) officer rows. -/
def removeUserFromOfficerGroups (db : DBState) (o : OfficerRow) : DBState :=
  let stale := cgOf db o
  let keep := (db.officers.filter (fun x => decide (x.user = o.user))).flatMap
    (fun x => cgOf db x)
  let staleDiff := stale.filter (fun g => decide (g ∉ keep))
  let ms := db.memberships.filter
    (fun gu => decide (¬(gu.2 = o.user ∧ gu.1 ∈ staleDiff)))
  { db with memberships := ms }

/-- Deleting an `Officer` row: the row is removed and then the
`officer_post_delete` signal runs `_remove_user_from_officer_groups` on the
deleted instance, with the row no longer in the database. -/
def Officer.delete (db : DBState) (o : OfficerRow) : DBState :=
  removeUserFromOfficerGroups { db with officers := db.officers.erase o } o

/-- `Term._calculate_pk`: `year * 10 + term-as-int`. -/
def Term.calculate_pk (t : Term) : Int :=
  (t.year : Int) * 10 + TERM_MAPPING t.term

/-- The guard of `Term.save`: the object already has a primary key and the
year or term does not match it (`year != id // 10 or term != id % 10`,
Python floor division and modulus, i.e. Euclidean for the divisor 10). -/
def Term.pkMismatch (t : Term) : Bool :=
  match t.id with
  | some i =>
    decide (¬((t.year : Int) = i / 10)) ||
      decide (¬(TERM_MAPPING t.term = i % 10))
  | none => false

/-- The row written by a successful `Term.save`. -/
def Term.savedRow (t : Term) : TermRow :=
  ⟨Term.calculate_pk t, t.term, t.year, t.current⟩

/-- `Term.objects.filter(current=True).exclude(id=pk).update(current=False)`. -/
def clearOtherCurrent (terms : List TermRow) (pk : Int) : List TermRow :=
  terms.map (fun r =>
    if r.current && !(decide (r.id = pk)) then { r with current := false } else r)

/-- `super(Term, self).save()` with an explicit primary key: update the row
with that key if present, insert it otherwise. -/
def upsertTerm (terms : List TermRow) (row : TermRow) : List TermRow :=
  if terms.any (fun r => decide (r.id = row.id)) then
    terms.map (fun r => if decide (r.id = row.id) then row else r)
  else terms ++ [row]

/-- `Term.update_term_officer_groups`: when the saved term is current, clear
every group whose name contains `Current`, then re-add every officer of this
term to that officer's corresponding groups. -/
def Term.update_term_officer_groups (db : DBState) (row : TermRow) : DBState :=
  if row.current then
    let db1 := { db with memberships :=
      db.memberships.filter (fun gu => !(strContains gu.1 "Current")) }
    (db1.officers.filter (fun o => decide (o.termId = row.id))).foldl
      addUserToOfficerGroups db1
  else db

/-- `cache.set('current_term', self)` at the end of `Term.save` when the
saved term is current. -/
def Term.applyCache (t : Term) (db : DBState) : DBState :=
  if t.current then { db with cachedCurrentTerm := some (Term.savedRow t) }
  else db

/-- The term rows after the transaction body of `Term.save`. -/
def Term.savedTerms (t : Term) (terms : List TermRow) : List TermRow :=
  upsertTerm
    (if t.current then clearOtherCurrent terms (Term.calculate_pk t) else terms)
    (Term.savedRow t)

/-- The message of the `ValueError` raised by `Term.save`. -/
def valueErrorMsg : String :=
  "You cannot update the year or term without also updating the primary key value."

/-- `Term.save`: return immediately on the `(UNKNOWN, 0)` sentinel; raise
`ValueError` when the existing primary key disagrees with year and term;
otherwise derive the primary key, clear the other current terms when saving a
current term, write the row, update the term officer groups, and refresh the
current-term cache. -/
def Term.save (t : Term) (db : DBState) : Except String (Term × DBState) :=
  if t.term = TermCode.un ∧ t.year = 0 then .ok (t, db)
  else if Term.pkMismatch t then .error valueErrorMsg
  else .ok ({ t with id := some (Term.calculate_pk t) },
    Term.applyCache t
      (Term.update_term_officer_groups
        { db with terms := Term.savedTerms t db.terms } (Term.savedRow t)))

/-- `Term.get_url_name`: the two-letter term code followed by `str(year)`. -/
def TermRow.get_url_name (r : TermRow) : String :=
  String.mk ((termCodeStr r.term).data ++ natRepr r.year)

/-- `TermManager.get_by_url_name`: look up by `term=name[0:2]` and
`year=name[2:]`; the year string is coerced to an integer by the ORM and a
`ValueError` from that coercion, like a missing row, yields `None`. -/
def TermManager.get_by_url_name (terms : List TermRow) (name : String) :
    Option TermRow :=
  match pyStrToInt (String.mk (name.data.drop 2)) with
  | none => none
  | some y => terms.find? (fun r =>
      decide (termCodeStr r.term = String.mk (name.data.take 2)) &&
        decide ((r.year : Int) = y))

/-! ### courses/models.py : Course ordering -/

/-- A `Course` with its department resolved to the department's registrar
abbreviation, the only department field `Course.__lt__` reads. -/
structure Course where
  deptAbbrev : String
  number : String
deriving DecidableEq

/-- The right-hand side of a Python comparison: a `Course` or any other
value (`Course.__lt__` returns `False` for non-`Course` arguments). -/
inductive PyVal
  | course (c : Course)
  | other
deriving DecidableEq

/-- `number.split('-', 1)` guarded by `'-' in number`: the part before the
first hyphen, and the part after it when a hyphen is present. -/
def splitHyphen : List Char → List Char × Option (List Char)
  | [] => ([], none)
  | c :: t =>
    if c = '-' then ([], some t)
    else
      let r := splitHyphen t
      (c :: r.1, r.2)

/-- `lstrip(string.letters)`: drop leading ASCII letters. -/
def lstripLetters (cs : List Char) : List Char := cs.dropWhile Char.isAlpha

/-- `strip(string.letters)`: drop ASCII letters from both ends. -/
def stripLetters (cs : List Char) : List Char :=
  ((cs.dropWhile Char.isAlpha).reverse.dropWhile Char.isAlpha).reverse

/-- Python 2 lexicographic `<` on strings, by character code. -/
def listCharLt : List Char → List Char → Bool
  | _, [] => false
  | [], _ :: _ => true
  | a :: as, b :: bs =>
    if a < b then true else if b < a then false else listCharLt as bs

/-- The values `Course.__lt__` derives from a course number before comparing:
the pre-hyphen number, `int(number.strip(string.letters))`,
`number.lstrip(string.letters)`, and `int(number.split('-', 1)[1])` with a
default of `0` when there is no hyphen.  `none` when either `int()` raises. -/
def parseCourseNumber (number : String) :
    Option (List Char × Int × List Char × Int) :=
  let p := splitHyphen number.data
  match (match p.2 with
    | none => some (0 : Int)
    | some s => pyStrToInt (String.mk s)) with
  | none => none
  | some hyph =>
    match pyStrToInt (String.mk (stripLetters p.1)) with
    | none => none
    | some i => some (p.1, i, lstripLetters p.1, hyph)

/-- `Course.__lt__`: `False` against a non-`Course`; otherwise compare
department abbreviations, then the integer part, then the `lstrip`-ped
number, then the pre-hyphen number, then the hyphen suffix.  `none` when an
`int()` conversion raises. -/
def Course.lt (self : Course) (v : PyVal) : Option Bool :=
  match v with
  | .other => some false
  | .course o =>
    if listCharLt self.deptAbbrev.data o.deptAbbrev.data then some true
    else if listCharLt o.deptAbbrev.data self.deptAbbrev.data then some false
    else
      match parseCourseNumber self.number, parseCourseNumber o.number with
      | some (num1, i1, post1, h1), some (num2, i2, post2, h2) =>
        some (if i1 < i2 then true
          else if i2 < i1 then false
          else if listCharLt post1 post2 then true
          else if listCharLt post2 post1 then false
          else if listCharLt num1 num2 then true
          else if listCharLt num2 num1 then false
          else decide (h1 < h2))
      | _, _ => none

/-- The maximal run of trailing ASCII letters of a string. -/
def trailingLetters (cs : List Char) : List Char :=
  (cs.reverse.takeWhile Char.isAlpha).reverse

/-- The maximal run of leading ASCII letters of a string. -/
def leadingLetters (cs : List Char) : List Char := cs.takeWhile Char.isAlpha

/-- Lexicographic strict order on the comparison keys
(integer part, first string key, second string key, hyphen suffix). -/
def keyLt (k1 k2 : Int × List Char × List Char × Int) : Bool :=
  decide (k1.1 < k2.1) ||
    (decide (k1.1 = k2.1) && (listCharLt k1.2.1 k2.2.1 ||
      (decide (k1.2.1 = k2.2.1) && (listCharLt k1.2.2.1 k2.2.2.1 ||
        (decide (k1.2.2.1 = k2.2.2.1) && decide (k1.2.2.2 < k2.2.2.2))))))

/-- The comparison key described by the specification sentence for the course
comparator: integer part, then the trailing (postfix) letters of the number,
then the leading (prefix) letters, then the numeric suffix after a hyphen
(0 when there is no hyphen). -/
def specKey (number : String) : Option (Int × List Char × List Char × Int) :=
  let p := splitHyphen number.data
  match (match p.2 with
    | none => some (0 : Int)
    | some s => pyStrToInt (String.mk s)) with
  | none => none
  | some hyph =>
    match pyStrToInt (String.mk (stripLetters p.1)) with
    | none => none
    | some i => some (i, trailingLetters p.1, leadingLetters p.1, hyph)

/-- The comparison key of the amended claim: integer part, then the
pre-hyphen number with its leading letters removed (digit characters
included), then the whole pre-hyphen number, then the hyphen suffix. -/
def amendedKey (number : String) : Option (Int × List Char × List Char × Int) :=
  let p := splitHyphen number.data
  match (match p.2 with
    | none => some (0 : Int)
    | some s => pyStrToInt (String.mk s)) with
  | none => none
  | some hyph =>
    match pyStrToInt (String.mk (stripLetters p.1)) with
    | none => none
    | some i => some (i, lstripLetters p.1, p.1, hyph)

/-- The course comparator as the specification sentence describes it. -/
def Course.lt_spec (self : Course) (v : PyVal) : Option Bool :=
  match v with
  | .other => some false
  | .course o =>
    if listCharLt self.deptAbbrev.data o.deptAbbrev.data then some true
    else if listCharLt o.deptAbbrev.data self.deptAbbrev.data then some false
    else
      match specKey self.number, specKey o.number with
      | some k1, some k2 => some (keyLt k1 k2)
      | _, _ => none

/-- The course comparator as the amended claim describes it. -/
def Course.lt_amended (self : Course) (v : PyVal) : Option Bool :=
  match v with
  | .other => some false
  | .course o =>
    if listCharLt self.deptAbbrev.data o.deptAbbrev.data then some true
    else if listCharLt o.deptAbbrev.data self.deptAbbrev.data then some false
    else
      match amendedKey self.number, amendedKey o.number with
      | some k1, some k2 => some (keyLt k1 k2)
      | _, _ => none

/-! ### exams/forms.py : ExamForm, UploadForm, EditForm -/

/-- A `Course` row as the exam forms look it up: primary key, department
foreign key, and course number. -/
structure CourseRow where
  id : Nat
  departmentId : Nat
  number : String
deriving DecidableEq

/-- A `CourseInstance` row: term (nullable), course, and the many-to-many
instructor set as a duplicate-free list of instructor ids. -/
structure CourseInstanceRow where
  id : Nat
  term : Option Int
  courseId : Nat
  instructors : List Nat
deriving DecidableEq

/-- Modelled from the spec: the `InstructorPermission` model of
exams/models.py is not among the sources; the forms read its `instructor`
foreign key and `permission_allowed` flag. -/
structure InstructorPermission where
  instructor : Nat
  permission_allowed : Bool
deriving DecidableEq

/-- Modelled from the spec: the `Exam` model of exams/models.py is not among
the sources; the duplicate checks of the forms read its primary key,
`course_instance` foreign key, `exam_number` and `exam_type`. -/
structure ExamRow where
  pk : Nat
  courseInstanceId : Nat
  exam_number : String
  exam_type : String
deriving DecidableEq

/-- The database state the exam forms touch; `nextCIId` is the next primary
key the ORM hands to a created `CourseInstance`. -/
structure ExamsDB where
  courses : List CourseRow
  courseInstances : List CourseInstanceRow
  permissions : List InstructorPermission
  exams : List ExamRow
  nextCIId : Nat
deriving DecidableEq

/-- The validated form fields `set_course_instance` and the duplicate checks
read; `instructors` is the duplicate-free selection of instructor ids. -/
structure ExamFormData where
  departmentId : Nat
  course_number : String
  term : Option Int
  instructors : List Nat
  exam_number : String
  exam_type : String
deriving DecidableEq

/-- The `ValidationError`s the forms can raise, by raise site; the
`ineligibleExam` constructor carries the instructor recorded in the
`instructors` field error. -/
inductive FormError
  | invalidCourse
  | fillAllFields
  | ineligibleExam (instructor : Nat)
  | multipleObjectsReturned
  | duplicateExam
deriving DecidableEq

/-- `get_object_or_none(InstructorPermission, instructor=i)` reduced to the
`permission_allowed` flag: `none` when the instructor has no permission
record. -/
def permLookup (db : ExamsDB) (i : Nat) : Option Bool :=
  (db.permissions.find? (fun p => decide (p.instructor = i))).map
    InstructorPermission.permission_allowed

/-- The permission loop of `set_course_instance`: the first selected
instructor whose permission record exists and has `permission_allowed`
false. -/
def findDisallowed (perms : List InstructorPermission) (sel : List Nat) :
    Option Nat :=
  sel.find? (fun i =>
    match perms.find? (fun p => decide (p.instructor = i)) with
    | some p => !p.permission_allowed
    | none => false)

/-- The `CourseInstance` queryset of `set_course_instance`: annotate with the
instructor count, filter on that count, the term and the course, then filter
once per selected instructor on containment. -/
def matchingCIs (db : ExamsDB) (d : ExamFormData) (course : CourseRow) :
    List CourseInstanceRow :=
  db.courseInstances.filter (fun ci =>
    decide (ci.instructors.length = d.instructors.length) &&
      decide (ci.term = d.term) && decide (ci.courseId = course.id) &&
      d.instructors.all (fun i => decide (i ∈ ci.instructors)))

/-- `ExamForm.set_course_instance`: resolve the course (both field errors and
`Invalid course` when absent), require a nonempty instructor selection,
reject when a selected instructor has withdrawn permission, then reuse the
course instance matching term, course and exact instructor set, creating one
when none exists (`get()` raises when several match). -/
def ExamForm.set_course_instance (db : ExamsDB) (d : ExamFormData) :
    Except FormError (CourseInstanceRow × ExamsDB) :=
  match db.courses.find? (fun c =>
    decide (c.departmentId = d.departmentId) &&
      decide (c.number = d.course_number)) with
  | none => .error FormError.invalidCourse
  | some course =>
    if d.instructors.isEmpty then .error FormError.fillAllFields
    else
      match findDisallowed db.permissions d.instructors with
      | some j => .error (FormError.ineligibleExam j)
      | none =>
        match matchingCIs db d course with
        | [] =>
          let ci : CourseInstanceRow :=
            ⟨db.nextCIId, d.term, course.id, d.instructors⟩
          .ok (ci, { db with
            courseInstances := db.courseInstances ++ [ci],
            nextCIId := db.nextCIId + 1 })
        | [ci] => .ok (ci, db)
        | _ => .error FormError.multipleObjectsReturned

/-- `UploadForm.clean`: after `set_course_instance`, reject when a stored
exam already has this course instance, exam number and exam type. -/
def UploadForm.clean (db : ExamsDB) (d : ExamFormData) :
    Except FormError (CourseInstanceRow × ExamsDB) :=
  match ExamForm.set_course_instance db d with
  | .error e => .error e
  | .ok (ci, db1) =>
    if db1.exams.any (fun e => decide (e.courseInstanceId = ci.id) &&
        decide (e.exam_number = d.exam_number) &&
        decide (e.exam_type = d.exam_type)) then
      .error FormError.duplicateExam
    else .ok (ci, db1)

/-- `EditForm.clean`: as `UploadForm.clean` but the duplicate search excludes
the exam being edited (`exclude(pk=self.instance.pk)`). -/
def EditForm.clean (db : ExamsDB) (d : ExamFormData) (editPk : Nat) :
    Except FormError (CourseInstanceRow × ExamsDB) :=
  match ExamForm.set_course_instance db d with
  | .error e => .error e
  | .ok (ci, db1) =>
    if db1.exams.any (fun e => decide (e.courseInstanceId = ci.id) &&
        decide (e.exam_number = d.exam_number) &&
        decide (e.exam_type = d.exam_type) && decide (e.pk ≠ editPk)) then
      .error FormError.duplicateExam
    else .ok (ci, db1)

/-! ### Helper lemmas about `Term.save` -/

theorem TERM_MAPPING_nonneg (c : TermCode) : 0 ≤ TERM_MAPPING c := by
  cases c <;> decide

theorem TERM_MAPPING_lt_ten (c : TermCode) : TERM_MAPPING c < 10 := by
  cases c <;> decide

theorem pk_guard_iff (y m i : Int) (hm0 : 0 ≤ m) (hm : m < 10) :
    (¬(y = i / 10) ∨ ¬(m = i % 10)) ↔ i ≠ y * 10 + m := by
  omega

theorem Term.pkMismatch_iff (t : Term) :
    Term.pkMismatch t = true ↔
      ∃ i, t.id = some i ∧ i ≠ Term.calculate_pk t := by
  cases hid : t.id with
  | none => simp [Term.pkMismatch, hid]
  | some i =>
    simp only [Term.pkMismatch, hid, Bool.or_eq_true, decide_eq_true_eq,
      Option.some.injEq, exists_eq_left']
    exact pk_guard_iff (t.year : Int) (TERM_MAPPING t.term) i
      (TERM_MAPPING_nonneg t.term) (TERM_MAPPING_lt_ten t.term)

theorem Term.applyCache_terms (t : Term) (db : DBState) :
    (Term.applyCache t db).terms = db.terms := by
  unfold Term.applyCache
  split <;> rfl

theorem foldl_addUser_terms (l : List OfficerRow) (db : DBState) :
    (l.foldl addUserToOfficerGroups db).terms = db.terms := by
  induction l generalizing db with
  | nil => rfl
  | cons o l ih =>
    rw [List.foldl_cons, ih]
    rfl

theorem Term.update_groups_terms (db : DBState) (row : TermRow) :
    (Term.update_term_officer_groups db row).terms = db.terms := by
  unfold Term.update_term_officer_groups
  split
  · rw [foldl_addUser_terms]
  · rfl

theorem mem_upsertTerm_self (l : List TermRow) (row : TermRow) :
    row ∈ upsertTerm l row := by
  unfold upsertTerm
  split
  · next hany =>
    rw [List.any_eq_true] at hany
    obtain ⟨x, hx, hid⟩ := hany
    simp only [decide_eq_true_eq] at hid
    exact List.mem_map.mpr ⟨x, hx, by simp [hid]⟩
  · exact List.mem_append.mpr (Or.inr (List.mem_singleton.mpr rfl))

theorem mem_upsertTerm_iff (l : List TermRow) (row x : TermRow) :
    x ∈ upsertTerm l row ↔ x = row ∨ (x ∈ l ∧ x.id ≠ row.id) := by
  unfold upsertTerm
  split
  · next hany =>
    rw [List.any_eq_true] at hany
    obtain ⟨y0, hy0, hid0⟩ := hany
    simp only [decide_eq_true_eq] at hid0
    simp only [List.mem_map]
    constructor
    · rintro ⟨y, hy, hxy⟩
      by_cases hy2 : y.id = row.id
      · rw [if_pos (decide_eq_true hy2)] at hxy
        exact Or.inl hxy.symm
      · rw [if_neg (by simpa using hy2)] at hxy
        exact Or.inr ⟨hxy ▸ hy, hxy ▸ hy2⟩
    · rintro (rfl | ⟨hx, hne⟩)
      · exact ⟨y0, hy0, by simp [hid0]⟩
      · exact ⟨x, hx, by simp [hne]⟩
  · next hany =>
    have hall : ∀ y ∈ l, y.id ≠ row.id := by
      intro y hy hcon
      exact hany (List.any_eq_true.mpr ⟨y, hy, by simpa using hcon⟩)
    rw [List.mem_append, List.mem_singleton]
    constructor
    · rintro (hx | rfl)
      · exact Or.inr ⟨hx, hall x hx⟩
      · exact Or.inl rfl
    · rintro (rfl | ⟨hx, _⟩)
      · exact Or.inr rfl
      · exact Or.inl hx

theorem mem_clearOtherCurrent_current (l : List TermRow) (pk : Int)
    (x : TermRow) (hx : x ∈ clearOtherCurrent l pk) (hc : x.current = true) :
    x.id = pk := by
  unfold clearOtherCurrent at hx
  obtain ⟨y, hy, hxy⟩ := List.mem_map.mp hx
  by_cases h : y.current && !(decide (y.id = pk))
  · rw [if_pos h] at hxy
    rw [← hxy] at hc
    cases hc
  · rw [if_neg h] at hxy
    subst hxy
    simp only [Bool.and_eq_true, Bool.not_eq_true', decide_eq_false_iff_not,
      not_and, not_not] at h
    exact h hc

theorem mem_clearOtherCurrent_of_mem (l : List TermRow) (pk : Int)
    (x : TermRow) (hx : x ∈ l) (hid : x.id ≠ pk) :
    (if x.current = true then { x with current := false } else x) ∈
      clearOtherCurrent l pk := by
  unfold clearOtherCurrent
  refine List.mem_map.mpr ⟨x, hx, ?_⟩
  by_cases hc : x.current = true
  · rw [if_pos (by simp [hc, hid]), if_pos hc]
  · rw [if_neg (by simp [hc]), if_neg hc]

/-- A successful non-sentinel `Term.save` determines the returned object and
the new state. -/
theorem Term.save_ok_inv (t : Term) (db : DBState) (t2 : Term) (db2 : DBState)
    (hne : ¬(t.term = TermCode.un ∧ t.year = 0))
    (hok : Term.save t db = .ok (t2, db2)) :
    t2 = { t with id := some (Term.calculate_pk t) } ∧
      db2.terms = Term.savedTerms t db.terms := by
  rw [Term.save, if_neg hne] at hok
  by_cases hpm : Term.pkMismatch t = true
  · rw [if_pos hpm] at hok
    cases hok
  · rw [if_neg hpm] at hok
    simp only [Except.ok.injEq, Prod.mk.injEq] at hok
    obtain ⟨h1, h2⟩ := hok
    refine ⟨h1.symm, ?_⟩
    rw [← h2, Term.applyCache_terms, Term.update_groups_terms]

/-! ### C1, C9, C10 : Term.save -/

/-- C1: for every `Term` whose (term, year) pair is not the sentinel
(UNKNOWN, 0), a successful `Term.save` leaves the object's primary key equal
to `year * 10 + m(term)` (with m as `TERM_MAPPING`) and stores a row with
that key; and when the pre-save id is set to any other value, `save` raises
`ValueError` (so nothing is stored: the state is only produced on the `.ok`
path). -/
theorem Term.save_derives_pk (t : Term) (db : DBState)
    (h : ¬(t.term = TermCode.un ∧ t.year = 0)) :
    (∀ t2 db2, Term.save t db = .ok (t2, db2) →
      t2.id = some ((t.year : Int) * 10 + TERM_MAPPING t.term) ∧
      (⟨(t.year : Int) * 10 + TERM_MAPPING t.term, t.term, t.year, t.current⟩ :
        TermRow) ∈ db2.terms) ∧
    (∀ i : Int, t.id = some i →
      i ≠ (t.year : Int) * 10 + TERM_MAPPING t.term →
      Term.save t db = .error valueErrorMsg) := by
  constructor
  · intro t2 db2 hok
    obtain ⟨ht2, hdb2⟩ := Term.save_ok_inv t db t2 db2 h hok
    subst ht2
    refine ⟨rfl, ?_⟩
    rw [hdb2]
    exact mem_upsertTerm_self _ _
  · intro i hid hne
    have hpm : Term.pkMismatch t = true :=
      (Term.pkMismatch_iff t).mpr ⟨i, hid, hne⟩
    rw [Term.save, if_neg h, if_pos hpm]

/-- C1 witness: a term with a stale primary key is rejected, and a fresh
term gets `year * 10 + m(term)` as its key. -/
theorem Term.save_derives_pk_w :
    Term.save ⟨some 5, TermCode.fa, 2012, false⟩ ⟨[], [], [], none⟩ =
      .error valueErrorMsg ∧
    (⟨(2012 : Nat) * 10 + TERM_MAPPING TermCode.fa, TermCode.fa, 2012,
        false⟩ : TermRow) ∈
      (⟨[⟨20124, TermCode.fa, 2012, false⟩], [], [], none⟩ : DBState).terms := by
  constructor
  · exact (Term.save_derives_pk ⟨some 5, TermCode.fa, 2012, false⟩
      ⟨[], [], [], none⟩ (by decide)).2 5 rfl (by decide)
  · exact ((Term.save_derives_pk ⟨none, TermCode.fa, 2012, false⟩
      ⟨[], [], [], none⟩ (by decide)).1
      ⟨some 20124, TermCode.fa, 2012, false⟩
      ⟨[⟨20124, TermCode.fa, 2012, false⟩], [], [], none⟩ (by decide)).2

/-- C10: saving a `Term` whose term is UNKNOWN and whose year is 0 returns
immediately without error and leaves the entire state (term rows, officers,
group memberships, cached current term) unchanged. -/
theorem Term.save_sentinel_noop (t : Term) (db : DBState)
    (h1 : t.term = TermCode.un) (h2 : t.year = 0) :
    Term.save t db = .ok (t, db) := by
  rw [Term.save, if_pos ⟨h1, h2⟩]

/-- C9: after a successful non-sentinel `Term.save`: when the saved term is
current, every stored row other than the saved one has its current flag
cleared; when it is not current, the set of other rows is untouched; and
when at most one stored term was current before the save, at most one is
current after it. -/
theorem Term.save_single_current (t : Term) (db : DBState) (t2 : Term)
    (db2 : DBState) (hne : ¬(t.term = TermCode.un ∧ t.year = 0))
    (hok : Term.save t db = .ok (t2, db2)) :
    (t.current = true → ∀ r ∈ db2.terms, r.id ≠ Term.calculate_pk t →
      r.current = false) ∧
    (t.current = false →
      (∀ r ∈ db.terms, r.id ≠ Term.calculate_pk t → r ∈ db2.terms) ∧
      (∀ r ∈ db2.terms, r.id ≠ Term.calculate_pk t → r ∈ db.terms)) ∧
    ((∀ r ∈ db.terms, ∀ s ∈ db.terms, r.current = true → s.current = true →
        r = s) →
      ∀ r ∈ db2.terms, ∀ s ∈ db2.terms, r.current = true → s.current = true →
        r = s) := by
  obtain ⟨-, hdb2⟩ := Term.save_ok_inv t db t2 db2 hne hok
  have hrowid : (Term.savedRow t).id = Term.calculate_pk t := rfl
  have hmem : ∀ x, x ∈ db2.terms ↔
      x = Term.savedRow t ∨
        (x ∈ (if t.current then clearOtherCurrent db.terms (Term.calculate_pk t)
            else db.terms) ∧ x.id ≠ Term.calculate_pk t) := by
    intro x
    rw [hdb2]
    exact mem_upsertTerm_iff _ _ x
  have hclear : t.current = true → ∀ r, r ∈ db2.terms → r.current = true →
      r = Term.savedRow t := by
    intro hcur r hr hc
    rcases (hmem r).mp hr with rfl | ⟨hr1, hrid⟩
    · rfl
    · rw [if_pos hcur] at hr1
      exact absurd (mem_clearOtherCurrent_current _ _ r hr1 hc) hrid
  refine ⟨?_, ?_, ?_⟩
  · intro hcur r hr hrid
    cases hc : r.current with
    | false => rfl
    | true => exact absurd (congrArg TermRow.id (hclear hcur r hr hc)) hrid
  · intro hcur
    constructor
    · intro r hr hrid
      refine (hmem r).mpr (Or.inr ⟨?_, hrid⟩)
      rw [if_neg (by simp [hcur])]
      exact hr
    · intro r hr hrid
      rcases (hmem r).mp hr with rfl | ⟨hr1, _⟩
      · exact absurd hrowid hrid
      · rw [if_neg (by simp [hcur])] at hr1
        exact hr1
  · intro hbefore r hr s hs hrc hsc
    cases hcur : t.current with
    | true =>
      rw [hclear hcur r hr hrc, hclear hcur s hs hsc]
    | false =>
      have hrow : (Term.savedRow t).current = false := by
        simp [Term.savedRow, hcur]
      rcases (hmem r).mp hr with rfl | ⟨hr1, _⟩
      · exact absurd hrc (by simp [hrow])
      · rcases (hmem s).mp hs with rfl | ⟨hs1, _⟩
        · exact absurd hsc (by simp [hrow])
        · rw [if_neg (by simp [hcur])] at hr1 hs1
          exact hbefore r hr1 s hs1 hrc hsc

/-- C9 witness: saving a new current Fall 2023 term over a state whose
current term is Winter 2023 clears the old current flag. -/
theorem Term.save_single_current_w :
    Term.save ⟨none, TermCode.fa, 2023, true⟩
        ⟨[⟨20231, TermCode.wi, 2023, true⟩], [], [], none⟩ =
      .ok (⟨some 20234, TermCode.fa, 2023, true⟩,
        ⟨[⟨20231, TermCode.wi, 2023, false⟩, ⟨20234, TermCode.fa, 2023, true⟩],
          [], [], some ⟨20234, TermCode.fa, 2023, true⟩⟩) ∧
    (⟨20231, TermCode.wi, 2023, false⟩ : TermRow).current = false := by
  refine ⟨by decide, ?_⟩
  exact (Term.save_single_current ⟨none, TermCode.fa, 2023, true⟩
      ⟨[⟨20231, TermCode.wi, 2023, true⟩], [], [], none⟩
      ⟨some 20234, TermCode.fa, 2023, true⟩
      ⟨[⟨20231, TermCode.wi, 2023, false⟩, ⟨20234, TermCode.fa, 2023, true⟩],
        [], [], some ⟨20234, TermCode.fa, 2023, true⟩⟩
      (by decide) (by decide)).1 rfl
    ⟨20231, TermCode.wi, 2023, false⟩ (by decide) (by decide)

/-- C10 witness: the sentinel save is a no-op on a nonempty state. -/
theorem Term.save_sentinel_noop_w :
    Term.save ⟨none, TermCode.un, 0, true⟩
        ⟨[⟨20124, TermCode.fa, 2012, true⟩], [], [("Officer", 1)], none⟩ =
      .ok (⟨none, TermCode.un, 0, true⟩,
        ⟨[⟨20124, TermCode.fa, 2012, true⟩], [], [("Officer", 1)], none⟩) :=
  Term.save_sentinel_noop _ _ rfl rfl

/-! ### C2, C3 : officer groups -/

/-- C2: `get_corresponding_groups` returns exactly the group named
`long_name`, plus `Officer` when the position is not auxiliary, plus
`Executive` when it is executive, and for each of these names additionally
the `Current `-prefixed group exactly when the given term is current. -/
theorem OfficerPosition.groups_characterization (p : OfficerPosition)
    (t : TermRow) (g : String) :
    g ∈ p.get_corresponding_groups (some t) ↔
      ((g = p.long_name ∨ (p.auxiliary = false ∧ g = "Officer") ∨
          (p.executive = true ∧ g = "Executive")) ∨
        (t.current = true ∧ ∃ b,
          (b = p.long_name ∨ (p.auxiliary = false ∧ b = "Officer") ∨
            (p.executive = true ∧ b = "Executive")) ∧
          g = "Current " ++ b)) := by
  cases hc : t.current <;> cases ha : p.auxiliary <;> cases he : p.executive <;>
    simp [OfficerPosition.get_corresponding_groups, hc, ha, he] <;>
    aesop

/-- C3: after an `Officer` row is deleted, a (group, user) membership
survives exactly when it existed before and it is not the case that the user
is the deleted officer's user with the group among that officer's
corresponding groups but among the corresponding groups of no remaining
officer row of that user.  In particular every group still justified by a
remaining officer row of the user keeps the membership. -/
theorem Officer.delete_membership (db : DBState) (o : OfficerRow) (g : String)
    (u : Nat) :
    (g, u) ∈ (Officer.delete db o).memberships ↔
      ((g, u) ∈ db.memberships ∧
        ¬(u = o.user ∧ g ∈ cgOf db o ∧
          ∀ o2 ∈ db.officers.erase o, o2.user = o.user → g ∉ cgOf db o2)) := by
  have hcg2 : ∀ l o2, cgOf { db with officers := l } o2 = cgOf db o2 :=
    fun _ _ => rfl
  unfold Officer.delete removeUserFromOfficerGroups
  simp only [List.mem_filter, decide_eq_true_eq, List.mem_flatMap, hcg2]
  constructor
  · rintro ⟨hm, hno⟩
    refine ⟨hm, ?_⟩
    rintro ⟨hu, hcg, hnone⟩
    refine hno ⟨hu, hcg, ?_⟩
    rintro ⟨o2, ⟨ho2, ho2u⟩, hg⟩
    exact hnone o2 ho2 ho2u hg
  · rintro ⟨hm, hno⟩
    refine ⟨hm, ?_⟩
    rintro ⟨hu, hcg, hnex⟩
    refine hno ⟨hu, hcg, ?_⟩
    intro o2 ho2 ho2u hg
    exact hnex ⟨o2, ⟨ho2, ho2u⟩, hg⟩

/-! ### C5, C6, C7 : exam forms -/

theorem ExamForm.scs_exams (db : ExamsDB) (d : ExamFormData)
    (ci : CourseInstanceRow) (db2 : ExamsDB)
    (h : ExamForm.set_course_instance db d = .ok (ci, db2)) :
    db2.exams = db.exams := by
  unfold ExamForm.set_course_instance at h
  split at h
  · cases h
  · split at h
    · cases h
    · split at h
      · cases h
      · split at h
        · simp only [Except.ok.injEq, Prod.mk.injEq] at h
          rw [← h.2]
        · simp only [Except.ok.injEq, Prod.mk.injEq] at h
          rw [← h.2]
        · cases h

theorem error_ite_iff (b : Bool) (x : CourseInstanceRow × ExamsDB) :
    ((if b then (Except.error FormError.duplicateExam :
        Except FormError (CourseInstanceRow × ExamsDB)) else Except.ok x) =
      Except.error FormError.duplicateExam) ↔ b = true := by
  cases b <;> simp

/-- C5: given that `set_course_instance` succeeds and resolves the course
instance, `UploadForm.clean` reports a duplicate exactly when a stored exam
has the same course instance, exam number and exam type, and
`EditForm.clean` does so under the same condition except that the exam being
edited is excluded. -/
theorem Exams.clean_duplicate_iff (db : ExamsDB) (d : ExamFormData)
    (ci : CourseInstanceRow) (db2 : ExamsDB)
    (h : ExamForm.set_course_instance db d = .ok (ci, db2)) :
    (UploadForm.clean db d = .error FormError.duplicateExam ↔
      ∃ e ∈ db.exams, e.courseInstanceId = ci.id ∧
        e.exam_number = d.exam_number ∧ e.exam_type = d.exam_type) ∧
    (∀ pk, EditForm.clean db d pk = .error FormError.duplicateExam ↔
      ∃ e ∈ db.exams, e.courseInstanceId = ci.id ∧
        e.exam_number = d.exam_number ∧ e.exam_type = d.exam_type ∧
        e.pk ≠ pk) := by
  have hex := ExamForm.scs_exams db d ci db2 h
  constructor
  · have h1 : UploadForm.clean db d =
        (if db2.exams.any (fun e => decide (e.courseInstanceId = ci.id) &&
            decide (e.exam_number = d.exam_number) &&
            decide (e.exam_type = d.exam_type)) then
          Except.error FormError.duplicateExam
        else Except.ok (ci, db2)) := by
      unfold UploadForm.clean
      rw [h]
    rw [h1, hex]
    rw [error_ite_iff, List.any_eq_true]
    simp only [Bool.and_eq_true, decide_eq_true_eq]
    tauto
  · intro pk
    have h1 : EditForm.clean db d pk =
        (if db2.exams.any (fun e => decide (e.courseInstanceId = ci.id) &&
            decide (e.exam_number = d.exam_number) &&
            decide (e.exam_type = d.exam_type) && decide (e.pk ≠ pk)) then
          Except.error FormError.duplicateExam
        else Except.ok (ci, db2)) := by
      unfold EditForm.clean
      rw [h]
    rw [h1, hex]
    rw [error_ite_iff, List.any_eq_true]
    simp only [Bool.and_eq_true, decide_eq_true_eq]
    tauto

/-- C5 witness: an upload duplicating the stored exam is rejected. -/
theorem Exams.clean_duplicate_iff_w :
    UploadForm.clean
        ⟨[⟨1, 7, "61A"⟩], [⟨3, some 20124, 1, [5, 6]⟩], [⟨9, false⟩],
          [⟨100, 3, "mt1", "exam"⟩], 10⟩
        ⟨7, "61A", some 20124, [6, 5], "mt1", "exam"⟩ =
      .error FormError.duplicateExam := by
  exact (Exams.clean_duplicate_iff _ _ ⟨3, some 20124, 1, [5, 6]⟩
      ⟨[⟨1, 7, "61A"⟩], [⟨3, some 20124, 1, [5, 6]⟩], [⟨9, false⟩],
        [⟨100, 3, "mt1", "exam"⟩], 10⟩
      (by decide)).1.mpr (by decide)

theorem findDisallowed_pred (perms : List InstructorPermission) (i : Nat) :
    ((match perms.find? (fun p => decide (p.instructor = i)) with
      | some p => !p.permission_allowed
      | none => false) = true) ↔
      (perms.find? (fun p => decide (p.instructor = i))).map
        InstructorPermission.permission_allowed = some false := by
  cases h : perms.find? (fun p => decide (p.instructor = i)) with
  | none => simp
  | some p => simp [Bool.not_eq_true']

/-- C6: during exam form validation, once the course is resolved and the
instructor selection is nonempty, a selected instructor with an
`InstructorPermission` record whose `permission_allowed` is false makes
`set_course_instance` raise the ineligible-exam error naming such an
instructor; conversely that error is only ever raised for a selected
instructor whose permission record exists and is false, so instructors with
no record or an allowing record never trigger it. -/
theorem Exams.permission_rejection (db : ExamsDB) (d : ExamFormData) :
    ((∃ c ∈ db.courses, c.departmentId = d.departmentId ∧
        c.number = d.course_number) →
      d.instructors ≠ [] →
      (∃ i ∈ d.instructors, permLookup db i = some false) →
      ∃ j ∈ d.instructors, permLookup db j = some false ∧
        ExamForm.set_course_instance db d =
          .error (FormError.ineligibleExam j)) ∧
    (∀ j, ExamForm.set_course_instance db d =
        .error (FormError.ineligibleExam j) →
      j ∈ d.instructors ∧ permLookup db j = some false) := by
  constructor
  · intro hcourse hne hex
    have hie : d.instructors.isEmpty = false := by
      cases hd : d.instructors with
      | nil => exact absurd hd hne
      | cons a l => rfl
    have hcs : ∃ course, db.courses.find? (fun c =>
        decide (c.departmentId = d.departmentId) &&
          decide (c.number = d.course_number)) = some course := by
      rw [← Option.isSome_iff_exists, List.find?_isSome]
      obtain ⟨c, hc, h1, h2⟩ := hcourse
      exact ⟨c, hc, by simp [h1, h2]⟩
    obtain ⟨course, hcourseq⟩ := hcs
    have hfd : ∃ j, findDisallowed db.permissions d.instructors = some j := by
      rw [← Option.isSome_iff_exists]
      unfold findDisallowed
      rw [List.find?_isSome]
      obtain ⟨i, hi, hpi⟩ := hex
      refine ⟨i, hi, ?_⟩
      rw [findDisallowed_pred]
      exact hpi
    obtain ⟨j, hfdq⟩ := hfd
    have hjm : j ∈ d.instructors := List.mem_of_find?_eq_some hfdq
    have hjp : permLookup db j = some false := by
      have := List.find?_some hfdq
      rw [findDisallowed_pred] at this
      exact this
    refine ⟨j, hjm, hjp, ?_⟩
    unfold ExamForm.set_course_instance
    rw [hcourseq]
    simp only [hie, Bool.false_eq_true, if_false, hfdq]
  · intro j h
    unfold ExamForm.set_course_instance at h
    split at h
    · cases h
    · split at h
      · cases h
      · split at h
        · next j2 hfdq =>
          simp only [Except.error.injEq, FormError.ineligibleExam.injEq] at h
          subst h
          refine ⟨List.mem_of_find?_eq_some hfdq, ?_⟩
          have := List.find?_some hfdq
          rw [findDisallowed_pred] at this
          exact this
        · split at h
          · cases h
          · cases h
          · cases h

/-- C6 witness: an instructor who withdrew permission causes the
ineligible-exam rejection. -/
theorem Exams.permission_rejection_w :
    ExamForm.set_course_instance
        ⟨[⟨1, 7, "61A"⟩], [⟨3, some 20124, 1, [5, 6]⟩], [⟨9, false⟩],
          [⟨100, 3, "mt1", "exam"⟩], 10⟩
        ⟨7, "61A", some 20124, [9], "mt1", "exam"⟩ =
      .error (FormError.ineligibleExam 9) := by
  obtain ⟨j, hj, -, heq⟩ := (Exams.permission_rejection
      ⟨[⟨1, 7, "61A"⟩], [⟨3, some 20124, 1, [5, 6]⟩], [⟨9, false⟩],
        [⟨100, 3, "mt1", "exam"⟩], 10⟩
      ⟨7, "61A", some 20124, [9], "mt1", "exam"⟩).1
    (by decide) (by decide) (by decide)
  rw [List.mem_singleton.mp hj] at heq
  exact heq

/-- C7: when validation reaches the course-instance lookup (course resolved,
instructors selected and none disallowed), `set_course_instance` returns the
unique stored `CourseInstance` matching the term, the course, and the exact
instructor set (same instructor count and containing every selected
instructor) when one matches, leaving the state unchanged; and when none
matches it creates, appends and returns a new `CourseInstance` with exactly
that term, course and instructor list. -/
theorem Exams.set_course_instance_resolves (db : ExamsDB) (d : ExamFormData)
    (course : CourseRow)
    (hc : db.courses.find? (fun c =>
      decide (c.departmentId = d.departmentId) &&
        decide (c.number = d.course_number)) = some course)
    (hne : d.instructors ≠ [])
    (hperm : findDisallowed db.permissions d.instructors = none)
    (hnd : d.instructors.Nodup)
    (hcis : ∀ ci ∈ db.courseInstances, ci.instructors.Nodup) :
    (∀ ci, matchingCIs db d course = [ci] →
      ExamForm.set_course_instance db d = .ok (ci, db) ∧
      ci ∈ db.courseInstances ∧ ci.term = d.term ∧ ci.courseId = course.id ∧
      (∀ i, i ∈ ci.instructors ↔ i ∈ d.instructors)) ∧
    (matchingCIs db d course = [] →
      ExamForm.set_course_instance db d =
        .ok (⟨db.nextCIId, d.term, course.id, d.instructors⟩,
          ⟨db.courses,
            db.courseInstances ++ [⟨db.nextCIId, d.term, course.id,
              d.instructors⟩],
            db.permissions, db.exams, db.nextCIId + 1⟩)) := by
  have hie : d.instructors.isEmpty = false := by
    cases hd : d.instructors with
    | nil => exact absurd hd hne
    | cons a l => rfl
  constructor
  · intro ci hm
    have hcim : ci ∈ matchingCIs db d course := by
      rw [hm]
      exact List.mem_singleton.mpr rfl
    unfold matchingCIs at hcim
    rw [List.mem_filter] at hcim
    obtain ⟨hmem, hpred⟩ := hcim
    simp only [Bool.and_eq_true, decide_eq_true_eq, List.all_eq_true] at hpred
    obtain ⟨⟨⟨hlen, hterm⟩, hcid⟩, hall⟩ := hpred
    refine ⟨?_, hmem, hterm, hcid, ?_⟩
    · unfold ExamForm.set_course_instance
      rw [hc]
      simp only [hie, Bool.false_eq_true, if_false, hperm, hm]
    · have hsub : d.instructors.toFinset ⊆ ci.instructors.toFinset := by
        intro i hi
        rw [List.mem_toFinset] at hi ⊢
        exact hall i hi
      have hcard : ci.instructors.toFinset.card ≤
          d.instructors.toFinset.card := by
        rw [List.toFinset_card_of_nodup hnd,
          List.toFinset_card_of_nodup (hcis ci hmem), hlen]
      have hfeq := Finset.eq_of_subset_of_card_le hsub hcard
      intro i
      rw [← List.mem_toFinset, ← hfeq, List.mem_toFinset]
  · intro hm
    unfold ExamForm.set_course_instance
    rw [hc]
    simp only [hie, Bool.false_eq_true, if_false, hperm, hm]

/-- C7 witness: the stored course instance with the same term, course and
exact instructor set is reused, leaving the state unchanged. -/
theorem Exams.set_course_instance_resolves_w :
    ExamForm.set_course_instance
        ⟨[⟨1, 7, "61A"⟩], [⟨3, some 20124, 1, [5, 6]⟩], [⟨9, false⟩],
          [⟨100, 3, "mt1", "exam"⟩], 10⟩
        ⟨7, "61A", some 20124, [6, 5], "mt1", "exam"⟩ =
      .ok (⟨3, some 20124, 1, [5, 6]⟩,
        ⟨[⟨1, 7, "61A"⟩], [⟨3, some 20124, 1, [5, 6]⟩], [⟨9, false⟩],
          [⟨100, 3, "mt1", "exam"⟩], 10⟩) := by
  exact ((Exams.set_course_instance_resolves
      ⟨[⟨1, 7, "61A"⟩], [⟨3, some 20124, 1, [5, 6]⟩], [⟨9, false⟩],
        [⟨100, 3, "mt1", "exam"⟩], 10⟩
      ⟨7, "61A", some 20124, [6, 5], "mt1", "exam"⟩ ⟨1, 7, "61A"⟩
      (by decide) (by decide) (by decide) (by decide) (by decide)).1
    ⟨3, some 20124, 1, [5, 6]⟩ (by decide)).1

/-! ### C8 : URL-name round trip -/

theorem charOfNat_digit_isDigit (m : Nat) (h : m < 10) :
    (Char.ofNat (48 + m)).isDigit = true := by
  interval_cases m <;> decide

theorem charOfNat_digit_toNat (m : Nat) (h : m < 10) :
    (Char.ofNat (48 + m)).toNat = 48 + m := by
  interval_cases m <;> decide

theorem natReprAux_digits (f : Nat) : ∀ n, n < f →
    ∀ c ∈ natReprAux f n, c.isDigit = true := by
  induction f with
  | zero => intro n h; omega
  | succ f ih =>
    intro n h c hc
    simp only [natReprAux] at hc
    split at hc
    · next h10 =>
      rw [List.mem_singleton] at hc
      rw [hc]
      exact charOfNat_digit_isDigit n h10
    · next h10 =>
      rcases List.mem_append.mp hc with hc1 | hc1
      · exact ih (n / 10) (by omega) c hc1
      · rw [List.mem_singleton] at hc1
        rw [hc1]
        exact charOfNat_digit_isDigit (n % 10) (by omega)

theorem natReprAux_cons (f n : Nat) (h : n < f) :
    ∃ c t, natReprAux f n = c :: t := by
  cases f with
  | zero => omega
  | succ f =>
    simp only [natReprAux]
    split
    · exact ⟨_, _, rfl⟩
    · rcases natReprAux_cons f (n / 10) (by next h10 => omega) with ⟨c, t, hct⟩
      exact ⟨c, t ++ [Char.ofNat (48 + n % 10)], by rw [hct]; rfl⟩

theorem natReprAux_val (f : Nat) : ∀ n, n < f →
    digitsVal (natReprAux f n) = n := by
  induction f with
  | zero => intro n h; omega
  | succ f ih =>
    intro n h
    simp only [natReprAux]
    split
    · next h10 =>
      unfold digitsVal
      simp only [List.foldl_cons, List.foldl_nil]
      rw [charOfNat_digit_toNat n h10]
      omega
    · next h10 =>
      unfold digitsVal
      rw [List.foldl_append]
      have := ih (n / 10) (by omega)
      unfold digitsVal at this
      rw [this]
      simp only [List.foldl_cons, List.foldl_nil]
      rw [charOfNat_digit_toNat (n % 10) (by omega)]
      omega

theorem natRepr_digits (n : Nat) : ∀ c ∈ natRepr n, c.isDigit = true :=
  natReprAux_digits (n + 1) n (Nat.lt_succ_self n)

theorem natRepr_cons (n : Nat) : ∃ c t, natRepr n = c :: t :=
  natReprAux_cons (n + 1) n (Nat.lt_succ_self n)

theorem natRepr_val (n : Nat) : digitsVal (natRepr n) = n :=
  natReprAux_val (n + 1) n (Nat.lt_succ_self n)

theorem digit_not_ws (c : Char) (h : c.isDigit = true) :
    c.isWhitespace = false := by
  simp only [Char.isDigit, Bool.and_eq_true, decide_eq_true_eq] at h
  simp only [Char.isWhitespace, Bool.or_eq_false_iff, decide_eq_false_iff_not]
  refine ⟨⟨⟨?_, ?_⟩, ?_⟩, ?_⟩ <;> rintro rfl <;> revert h <;> decide

theorem digit_ne_plus (c : Char) (h : c.isDigit = true) : c ≠ '+' := by
  rintro rfl
  revert h
  decide

theorem digit_ne_minus (c : Char) (h : c.isDigit = true) : c ≠ '-' := by
  rintro rfl
  revert h
  decide

theorem dropWhile_eq_self_of_all (p : Char → Bool) (l : List Char)
    (h : ∀ c ∈ l, p c = false) : l.dropWhile p = l := by
  cases l with
  | nil => rfl
  | cons c t =>
    rw [List.dropWhile_cons, if_neg]
    simp [h c (List.mem_cons_self c t)]

theorem stripWs_digits (l : List Char) (h : ∀ c ∈ l, c.isDigit = true) :
    stripWs l = l := by
  have h1 : ∀ c ∈ l, c.isWhitespace = false :=
    fun c hc => digit_not_ws c (h c hc)
  unfold stripWs
  rw [dropWhile_eq_self_of_all _ _ h1,
    dropWhile_eq_self_of_all _ _ (fun c hc => h1 c (List.mem_reverse.mp hc)),
    List.reverse_reverse]

theorem digitsToNat_natRepr (n : Nat) : digitsToNat (natRepr n) = some n := by
  have hd := natRepr_digits n
  obtain ⟨c, t, hct⟩ := natRepr_cons n
  have hall : (natRepr n).all Char.isDigit = true :=
    List.all_eq_true.mpr (fun x hx => hd x hx)
  unfold digitsToNat
  rw [if_pos (by rw [hct] at hall ⊢; simp [hall]), natRepr_val]

theorem pyStrToInt_natRepr (n : Nat) :
    pyStrToInt (String.mk (natRepr n)) = some (n : Int) := by
  have hd := natRepr_digits n
  obtain ⟨c, t, hct⟩ := natRepr_cons n
  have hcdig : c.isDigit = true :=
    hd c (by rw [hct]; exact List.mem_cons_self c t)
  have hplus : ¬((natRepr n).head? = some '+') := by
    rw [hct, List.head?_cons]
    simp only [Option.some.injEq]
    exact digit_ne_plus c hcdig
  have hminus : ¬((natRepr n).head? = some '-') := by
    rw [hct, List.head?_cons]
    simp only [Option.some.injEq]
    exact digit_ne_minus c hcdig
  have hstrip : stripWs (String.mk (natRepr n)).data = natRepr n :=
    stripWs_digits _ hd
  unfold pyStrToInt
  simp only [hstrip, if_neg hplus, if_neg hminus, digitsToNat_natRepr,
    Option.map_some']
  rfl

theorem termCodeStr_len (c : TermCode) : (termCodeStr c).data.length = 2 := by
  cases c <;> decide

theorem termCodeStr_inj (a b : TermCode) (h : termCodeStr a = termCodeStr b) :
    a = b := by
  cases a <;> cases b <;> first | rfl | exact absurd h (by decide)

/-- C8: for every stored term (with the per-database uniqueness of the
(term, year) pair that the schema's `unique_together` enforces),
`get_by_url_name` applied to the term's `get_url_name` returns that term;
and `get_by_url_name` returns `None` exactly on inputs that name no stored
term, i.e. for which no stored row has the input's first two characters as
its term code and the rest of the input parsing (as Python `int`) to its
year. -/
theorem TermManager.get_by_url_name_round_trip (terms : List TermRow)
    (hwf : ∀ r ∈ terms, ∀ s ∈ terms, r.term = s.term → r.year = s.year →
      r = s) :
    (∀ r ∈ terms, TermManager.get_by_url_name terms r.get_url_name = some r) ∧
    (∀ name : String, TermManager.get_by_url_name terms name = none ↔
      ¬∃ r ∈ terms, termCodeStr r.term = String.mk (name.data.take 2) ∧
        pyStrToInt (String.mk (name.data.drop 2)) = some (r.year : Int)) := by
  constructor
  · intro r hr
    have hdata : (r.get_url_name).data =
        (termCodeStr r.term).data ++ natRepr r.year := rfl
    have htake : String.mk ((r.get_url_name).data.take 2) =
        termCodeStr r.term := by
      rw [hdata, ← termCodeStr_len r.term, List.take_left]
    have hdrop : String.mk ((r.get_url_name).data.drop 2) =
        String.mk (natRepr r.year) := by
      rw [hdata, ← termCodeStr_len r.term, List.drop_left]
    have hred : TermManager.get_by_url_name terms r.get_url_name =
        terms.find? (fun s =>
          decide (termCodeStr s.term = String.mk ((r.get_url_name).data.take 2))
            && decide ((s.year : Int) = (r.year : Int))) := by
      unfold TermManager.get_by_url_name
      rw [hdrop, pyStrToInt_natRepr]
    rw [hred]
    have hp : ∀ s : TermRow,
        (decide (termCodeStr s.term = String.mk ((r.get_url_name).data.take 2))
          && decide ((s.year : Int) = (r.year : Int))) = true ↔
        (s.term = r.term ∧ s.year = r.year) := by
      intro s
      rw [htake]
      simp only [Bool.and_eq_true, decide_eq_true_eq, Nat.cast_inj]
      constructor
      · rintro ⟨h1, h2⟩
        exact ⟨termCodeStr_inj s.term r.term h1, h2⟩
      · rintro ⟨h1, h2⟩
        exact ⟨by rw [h1], h2⟩
    cases hfind : terms.find? (fun s =>
        decide (termCodeStr s.term = String.mk ((r.get_url_name).data.take 2))
          && decide ((s.year : Int) = (r.year : Int))) with
    | none =>
      exfalso
      exact (List.find?_eq_none.mp hfind r hr) ((hp r).mpr ⟨rfl, rfl⟩)
    | some s =>
      have hs := List.find?_some hfind
      have hsm := List.mem_of_find?_eq_some hfind
      obtain ⟨h1, h2⟩ := (hp s).mp hs
      rw [hwf s hsm r hr h1 h2]
  · intro name
    unfold TermManager.get_by_url_name
    cases hy : pyStrToInt (String.mk (name.data.drop 2)) with
    | none =>
      constructor
      · rintro - ⟨r, hr, h1, h2⟩
        cases h2
      · intro h
        rfl
    | some y =>
      rw [List.find?_eq_none]
      constructor
      · intro hall
        rintro ⟨r, hr, h1, h2⟩
        rw [Option.some.injEq] at h2
        exact hall r hr (by simp [h1, h2.symm])
      · intro hnex x hx hpx
        simp only [Bool.and_eq_true, decide_eq_true_eq] at hpx
        exact hnex ⟨x, hx, hpx.1, by rw [hpx.2]⟩

/-- C8 witness: a stored Fall 2012 term is found under the name `fa2012`,
and a name naming no stored term gives `None`. -/
theorem TermManager.get_by_url_name_round_trip_w :
    TermManager.get_by_url_name [⟨20124, TermCode.fa, 2012, false⟩] "fa2012" =
      some ⟨20124, TermCode.fa, 2012, false⟩ ∧
    TermManager.get_by_url_name [⟨20124, TermCode.fa, 2012, false⟩] "sp2012" =
      none := by
  constructor
  · have h := (TermManager.get_by_url_name_round_trip
        [⟨20124, TermCode.fa, 2012, false⟩] (by decide)).1
      ⟨20124, TermCode.fa, 2012, false⟩ (by decide)
    rw [show (⟨20124, TermCode.fa, 2012, false⟩ : TermRow).get_url_name =
      "fa2012" by decide] at h
    exact h
  · exact (TermManager.get_by_url_name_round_trip
        [⟨20124, TermCode.fa, 2012, false⟩] (by decide)).2 "sp2012" |>.mpr
      (by decide)

/-! ### C4 : course ordering -/

theorem listCharLt_irrefl (l : List Char) : listCharLt l l = false := by
  induction l with
  | nil => rfl
  | cons c t ih =>
    unfold listCharLt
    rw [if_neg (lt_irrefl c), if_neg (lt_irrefl c)]
    exact ih

theorem listCharLt_eq_of_not (a : List Char) : ∀ b : List Char,
    listCharLt a b = false → listCharLt b a = false → a = b := by
  induction a with
  | nil =>
    intro b h1 h2
    cases b with
    | nil => rfl
    | cons d s => cases h1
  | cons c t ih =>
    intro b h1 h2
    cases b with
    | nil => cases h2
    | cons d s =>
      unfold listCharLt at h1 h2
      by_cases hcd : c < d
      · rw [if_pos hcd] at h1
        cases h1
      · by_cases hdc : d < c
        · rw [if_pos hdc] at h2
          cases h2
        · rw [if_neg hcd, if_neg hdc] at h1
          rw [if_neg hdc, if_neg hcd] at h2
          have hce : c = d := le_antisymm (not_lt.mp hdc) (not_lt.mp hcd)
          rw [hce, ih s h1 h2]

theorem chain_eq_keyLt (i1 i2 : Int) (p1 p2 n1 n2 : List Char)
    (h1 h2 : Int) :
    (if i1 < i2 then true
      else if i2 < i1 then false
      else if listCharLt p1 p2 then true
      else if listCharLt p2 p1 then false
      else if listCharLt n1 n2 then true
      else if listCharLt n2 n1 then false
      else decide (h1 < h2)) = keyLt (i1, p1, n1, h1) (i2, p2, n2, h2) := by
  unfold keyLt
  by_cases a : i1 < i2
  · simp [a]
  · by_cases b : i2 < i1
    · have hne : ¬(i1 = i2) := by omega
      simp [a, b, hne]
    · have heq : i1 = i2 := by omega
      subst heq
      rw [if_neg a, if_neg b]
      by_cases c : listCharLt p1 p2
      · simp [c, lt_irrefl]
      · by_cases d : listCharLt p2 p1
        · have hne : ¬(p1 = p2) := by
            rintro rfl
            rw [listCharLt_irrefl] at d
            cases d
          simp [c, d, hne, lt_irrefl]
        · have heq : p1 = p2 := listCharLt_eq_of_not p1 p2
            (by simpa using c) (by simpa using d)
          subst heq
          by_cases e : listCharLt n1 n2
          · simp [c, e, lt_irrefl, listCharLt_irrefl]
          · by_cases f : listCharLt n2 n1
            · have hne : ¬(n1 = n2) := by
                rintro rfl
                rw [listCharLt_irrefl] at f
                cases f
              simp [c, e, f, hne, lt_irrefl, listCharLt_irrefl]
            · have heq : n1 = n2 := listCharLt_eq_of_not n1 n2
                (by simpa using e) (by simpa using f)
              subst heq
              simp [lt_irrefl, listCharLt_irrefl]

theorem amendedKey_eq (number : String) :
    amendedKey number = (parseCourseNumber number).map
      (fun q => (q.2.1, q.2.2.1, q.1, q.2.2.2)) := by
  unfold amendedKey parseCourseNumber
  rcases hsp : splitHyphen number.data with ⟨num, hy⟩
  simp only [hsp]
  cases hy with
  | none =>
    cases hint : pyStrToInt (String.mk (stripLetters num)) <;> simp [hint]
  | some s =>
    cases hh : pyStrToInt (String.mk s) with
    | none => simp [hh]
    | some h0 =>
      cases hint : pyStrToInt (String.mk (stripLetters num)) <;>
        simp [hh, hint]

/-- C4 counterexample: with equal departments, the code orders course number
`01A` strictly before `1` (comparing `lstrip`-ped strings, where the digit
`0` precedes `1`), while the claimed comparison by trailing letters then
leading letters orders `01A` after `1` (trailing `A` against no trailing
letters); so `Course.__lt__` does not implement the claimed key. -/
theorem Course.lt_spec_counterexample :
    Course.lt ⟨"CS", "01A"⟩ (PyVal.course ⟨"CS", "1"⟩) = some true ∧
    Course.lt_spec ⟨"CS", "01A"⟩ (PyVal.course ⟨"CS", "1"⟩) = some false := by
  constructor
  · decide
  · decide

/-- C4 (amended): `Course.__lt__` orders by department abbreviation, then by
the integer part of the pre-hyphen course number, then by the pre-hyphen
number with leading letters removed compared as a raw string (digit
characters included), then by the full pre-hyphen number string, and finally
by the numeric suffix after a hyphen with default 0; a `Course` compared
against a non-`Course` value is never less than it. -/
theorem Course.lt_amended_correct (c : Course) (v : PyVal) :
    Course.lt c v = Course.lt_amended c v := by
  cases v with
  | other => rfl
  | course o =>
    unfold Course.lt Course.lt_amended
    by_cases hd1 : listCharLt c.deptAbbrev.data o.deptAbbrev.data
    · simp [hd1]
    · by_cases hd2 : listCharLt o.deptAbbrev.data c.deptAbbrev.data
      · simp [hd1, hd2]
      · simp only [hd1, hd2, Bool.false_eq_true, if_false]
        rw [amendedKey_eq, amendedKey_eq]
        cases hp1 : parseCourseNumber c.number with
        | none => rfl
        | some q1 =>
          cases hp2 : parseCourseNumber o.number with
          | none => simp [hp1, hp2]
          | some q2 =>
            obtain ⟨num1, i1, post1, h1⟩ := q1
            obtain ⟨num2, i2, post2, h2⟩ := q2
            simp only [hp1, hp2, Option.map_some']
            rw [chain_eq_keyLt]

end Tbp
